import Mathlib

/-!
Verification of the CSV column-profiling utility of the crime-reports
notebook.  The core source code is the function

  def get_col_set(csv_filename, col_index):
      with open(csv_filename) as f:
          reader = csv.reader(f)
          next(reader)
          return set(row[col_index] for row in reader)

together with the per-column loop

  for i in range(len(col_headers)):
      num_unique_values = len(get_col_set("boston.csv", i))

and the maximum-length computation

  desc_unique_values = get_col_set("boston.csv", 2)
  desc_max_length = max(len(val) for val in desc_unique_values)

We embed the delimited file as a `Table` (header plus data rows of raw text
fields), the Python list indexing `row[col_index]` (including negative
indices and the `IndexError` it raises on out-of-range access), and the
set accumulation of `get_col_set`.
-/

deriving instance DecidableEq for Except

/-- A delimited text table: a header naming the columns followed by data
rows of raw text fields.  In the source the header is the first CSV record,
consumed by `next(reader)`; here it is kept in its own field so that the
data rows are exactly what the generator in `get_col_set` iterates. -/
structure Table where
  header : List String
  rows : List (List String)
deriving DecidableEq, Repr

/-- The only failure the source scan can raise: the Python `IndexError`
produced by `row[col_index]` when the index is out of range for that row.
The notebook defines no further exception types. -/
inductive ProfileError where
  | indexError : ProfileError
deriving DecidableEq, Repr

/-- Python sequence index resolution for a sequence of length `n`: a
non-negative index `i` is valid iff `i < n`; a negative index `i` denotes
position `n + i` and is valid iff `0 ≤ n + i`.  Returns the resolved
position, or `none` when the access raises `IndexError`. -/
def pyIndex (n : Nat) (i : Int) : Option Nat :=
  if 0 ≤ i then
    if i < (n : Int) then some i.toNat else none
  else
    let j : Int := (n : Int) + i
    if 0 ≤ j then some j.toNat else none

/-- The Python expression `row[i]`: either the field at the resolved
position or an `IndexError`. -/
def pyGet (row : List String) (i : Int) : Except ProfileError String :=
  match pyIndex row.length i with
  | some j => .ok (row.getD j "")
  | none => .error .indexError

/-- Total variant of `pyGet` used to state what the successful scan
returns; it agrees with `pyGet` whenever the index resolves. -/
def pyGetD (row : List String) (i : Int) : String :=
  match pyIndex row.length i with
  | some j => row.getD j ""
  | none => ""

/-- The set comprehension `set(row[col_index] for row in reader)` over the
data rows: each row contributes its field at `col_index` to an accumulating
set of distinct values; the first out-of-range access aborts the scan with
the `IndexError`. -/
def get_col_set_rows (rows : List (List String)) (i : Int) :
    Except ProfileError (Finset String) :=
  match rows with
  | [] => .ok ∅
  | r :: rest => do
      let v ← pyGet r i
      let s ← get_col_set_rows rest i
      pure (insert v s)

/-- `get_col_set` from the notebook: skip the header record, then collect
the distinct values of the requested column over all data rows. -/
def get_col_set (t : Table) (col_index : Int) : Except ProfileError (Finset String) :=
  get_col_set_rows t.rows col_index

/-- The maximum-length aggregate `max(len(val) for val in values)` from the
notebook, as the `Finset` supremum of the string lengths.  Modelled from the
spec: the value `0` on the empty set, which the notebook never exercises
(its `max` call only runs on a non-empty column) and which the spec fixes
as the `max_length` of an empty column. -/
def max_value_length (s : Finset String) : Nat :=
  s.sup String.length

/-- The per-column statistics of the spec data model. -/
structure ColumnProfile where
  name : String
  distinct_values : Finset String
  distinct_count : Nat
  max_length : Nat
deriving DecidableEq

/-- Modelled from the spec: the `profile_column` contract assembling a
`ColumnProfile`; the notebook only contains its ingredients (`get_col_set`,
the `len` of the returned set, and the `max` of the value lengths), not a
function packaging them.  The scan and the aggregates are the embedded
source functions. -/
def profile_column (t : Table) (col_index : Int) :
    Except ProfileError ColumnProfile := do
  let s ← get_col_set t col_index
  pure { name := t.header.getD col_index.toNat ""
         distinct_values := s
         distinct_count := s.card
         max_length := max_value_length s }

/-- One profiling call per column index, in order, as in the notebook loop
`for i in range(len(col_headers)): get_col_set("boston.csv", i)`. -/
def profile_columns (t : Table) : List Nat → Except ProfileError (List ColumnProfile)
  | [] => pure []
  | i :: is => do
      let p ← profile_column t (i : Int)
      let ps ← profile_columns t is
      pure (p :: ps)

/-- Modelled from the spec: `profile_table` reads the header to determine
the column count and profiles each column index in header order; the
notebook performs exactly this loop over `range(len(col_headers))`. -/
def profile_table (t : Table) : Except ProfileError (List ColumnProfile) :=
  profile_columns t (List.range t.header.length)

/-- Modelled from the spec: the refinement alternative in its words, a single
pass over the data rows that inserts each extracted field into the
accumulating set while tracking the running maximum of the field lengths,
instead of computing the maximum in a second pass over the final set. -/
def runningMaxScan (rows : List (List String)) (i : Int)
    (s : Finset String) (m : Nat) : Except ProfileError (Finset String × Nat) :=
  match rows with
  | [] => pure (s, m)
  | r :: rest => do
      let v ← pyGet r i
      runningMaxScan rest i (insert v s) (Nat.max m v.length)

/-! ## Helper lemmas -/

theorem except_bind_ok {ε α β : Type} (a : α) (f : α → Except ε β) :
    (Except.ok a : Except ε α) >>= f = f a := rfl

theorem except_bind_err {ε α β : Type} (e : ε) (f : α → Except ε β) :
    (Except.error e : Except ε α) >>= f = Except.error e := rfl

theorem except_pure {ε α : Type} (a : α) : (pure a : Except ε α) = Except.ok a := rfl

theorem pyGet_ok (row : List String) (i : Int) (j : Nat)
    (h : pyIndex row.length i = some j) : pyGet row i = .ok (row.getD j "") := by
  simp [pyGet, h]

theorem pyGet_err (row : List String) (i : Int)
    (h : pyIndex row.length i = none) : pyGet row i = .error .indexError := by
  simp [pyGet, h]

theorem pyGetD_eq (row : List String) (i : Int) (j : Nat)
    (h : pyIndex row.length i = some j) : pyGetD row i = row.getD j "" := by
  simp [pyGetD, h]

theorem pyIndex_nat (n i : Nat) :
    pyIndex n (i : Int) = if i < n then some i else none := by
  simp [pyIndex]

theorem pyIndex_neg (n k : Nat) (hk : 1 ≤ k) :
    pyIndex n (-(k : Int)) = if k ≤ n then some (n - k) else none := by
  simp only [pyIndex]
  have h0 : ¬ (0 : Int) ≤ -(k : Int) := by omega
  rw [if_neg h0]
  split
  · rw [if_pos (by omega)]
    congr 1
    omega
  · rw [if_neg (by omega)]

/-- Successful scan: when every row resolves the index, `get_col_set_rows`
returns the `Finset` of the extracted fields. -/
theorem get_col_set_rows_ok (i : Int) (rows : List (List String))
    (h : ∀ r ∈ rows, (pyIndex r.length i).isSome) :
    get_col_set_rows rows i = .ok ((rows.map (fun r => pyGetD r i)).toFinset) := by
  induction rows with
  | nil => simp [get_col_set_rows]
  | cons r rest ih =>
      obtain ⟨j, hj⟩ := Option.isSome_iff_exists.mp (h r (List.mem_cons_self r rest))
      have ih2 := ih (fun x hx => h x (List.mem_cons_of_mem r hx))
      simp [get_col_set_rows, pyGet_ok r i j hj, ih2, pyGetD_eq r i j hj,
        except_bind_ok, except_pure]

/-- Failing scan: `get_col_set_rows` raises the index error exactly when
some row fails to resolve the index. -/
theorem get_col_set_rows_error_iff (i : Int) (rows : List (List String)) :
    get_col_set_rows rows i = .error .indexError ↔
      ∃ r ∈ rows, pyIndex r.length i = none := by
  induction rows with
  | nil => simp [get_col_set_rows]
  | cons r rest ih =>
      cases hpi : pyIndex r.length i with
      | none =>
          simp only [get_col_set_rows, pyGet_err r i hpi, except_bind_err]
          constructor
          · intro _
            exact ⟨r, List.mem_cons_self r rest, hpi⟩
          · intro _
            trivial
      | some j =>
          cases herr : get_col_set_rows rest i with
          | ok s =>
              simp only [get_col_set_rows, pyGet_ok r i j hpi, except_bind_ok, herr,
                except_pure]
              constructor
              · intro hcon
                exact absurd hcon (by simp)
              · rintro ⟨x, hx, hnone⟩
                rcases List.mem_cons.mp hx with rfl | hx2
                · rw [hpi] at hnone
                  exact absurd hnone (by simp)
                · have hx3 : get_col_set_rows rest i = .error .indexError :=
                    ih.mpr ⟨x, hx2, hnone⟩
                  rw [herr] at hx3
                  exact absurd hx3 (by simp)
          | error e =>
              cases e
              simp only [get_col_set_rows, pyGet_ok r i j hpi, except_bind_ok, herr,
                except_bind_err]
              constructor
              · intro _
                obtain ⟨x, hx, hnone⟩ := ih.mp herr
                exact ⟨x, List.mem_cons_of_mem r hx, hnone⟩
              · intro _
                trivial

/-- The scan never raises anything but the index error, so success is
the complement of the error characterisation. -/
theorem get_col_set_rows_cases (i : Int) (rows : List (List String)) :
    get_col_set_rows rows i = .error .indexError ∨
      ∃ s, get_col_set_rows rows i = .ok s := by
  cases h : get_col_set_rows rows i with
  | ok s => exact Or.inr ⟨s, rfl⟩
  | error e => cases e; exact Or.inl rfl

/-- The single pass with running maximum computes, on the rows it is given,
the union with the accumulated set and the maximum with the accumulated
length bound, of what the plain scan computes. -/
theorem runningMaxScan_eq (i : Int) (rows : List (List String)) :
    ∀ (s : Finset String) (m : Nat),
      runningMaxScan rows i s m =
        (get_col_set_rows rows i).map
          (fun s2 => (s ∪ s2, Nat.max m (max_value_length s2))) := by
  induction rows with
  | nil =>
      intro s m
      simp [runningMaxScan, get_col_set_rows, Except.map, max_value_length, except_pure]
  | cons r rest ih =>
      intro s m
      cases hpg : pyGet r i with
      | error e =>
          cases e
          simp [runningMaxScan, get_col_set_rows, hpg, except_bind_err, Except.map]
      | ok v =>
          rw [runningMaxScan, get_col_set_rows, hpg, except_bind_ok, except_bind_ok, ih]
          cases hrest : get_col_set_rows rest i with
          | error e => cases e; rfl
          | ok s2 =>
              simp only [Except.map, except_bind_ok, except_pure, Except.ok.injEq]
              refine Prod.ext ?_ ?_
              · show insert v s ∪ s2 = s ∪ insert v s2
                ext x
                simp only [Finset.mem_union, Finset.mem_insert]
                tauto
              · show Nat.max (Nat.max m v.length) (max_value_length s2) =
                  Nat.max m (max_value_length (insert v s2))
                rw [max_value_length, max_value_length, Finset.sup_insert, sup_eq_max]
                exact Nat.max_assoc m v.length (Finset.sup s2 String.length)

/-- Valid non-negative index: the scan succeeds and returns the set of the
fields at position `i` of every data row. -/
theorem get_col_set_rows_valid (i : Nat) (rows : List (List String))
    (h : ∀ r ∈ rows, i < r.length) :
    get_col_set_rows rows (i : Int) =
      .ok ((rows.map (fun r => r.getD i "")).toFinset) := by
  have hall : ∀ r ∈ rows, (pyIndex r.length (i : Int)).isSome := by
    intro r hr
    rw [pyIndex_nat, if_pos (h r hr)]
    rfl
  rw [get_col_set_rows_ok (i : Int) rows hall]
  congr 2
  apply List.map_congr_left
  intro r hr
  rw [pyGetD_eq r (i : Int) i (by rw [pyIndex_nat, if_pos (h r hr)])]

/-- The scan is invariant under permutation of the data rows. -/
theorem get_col_set_rows_perm (i : Int) (l₁ l₂ : List (List String))
    (hp : l₁.Perm l₂) : get_col_set_rows l₁ i = get_col_set_rows l₂ i := by
  by_cases herr : ∃ r ∈ l₁, pyIndex r.length i = none
  · have h1 := (get_col_set_rows_error_iff i l₁).mpr herr
    have h2 : get_col_set_rows l₂ i = .error .indexError := by
      apply (get_col_set_rows_error_iff i l₂).mpr
      obtain ⟨r, hr, hn⟩ := herr
      exact ⟨r, hp.mem_iff.mp hr, hn⟩
    rw [h1, h2]
  · push_neg at herr
    have hall₁ : ∀ r ∈ l₁, (pyIndex r.length i).isSome := fun r hr =>
      Option.isSome_iff_ne_none.mpr (herr r hr)
    have hall₂ : ∀ r ∈ l₂, (pyIndex r.length i).isSome := fun r hr =>
      hall₁ r (hp.mem_iff.mpr hr)
    rw [get_col_set_rows_ok i l₁ hall₁, get_col_set_rows_ok i l₂ hall₂]
    congr 1
    exact List.toFinset_eq_of_perm _ _ (hp.map _)

/-- `profile_column` is the image of `get_col_set` under the profile
assembly. -/
theorem profile_column_eq (t : Table) (i : Int) :
    profile_column t i = (get_col_set t i).map (fun s =>
      { name := t.header.getD i.toNat ""
        distinct_values := s
        distinct_count := s.card
        max_length := max_value_length s }) := by
  cases h : get_col_set t i <;>
    simp [profile_column, h, Except.map, except_bind_ok, except_bind_err, except_pure]

/-- Shape of any successful `profile_column` result. -/
theorem profile_column_ok_inv (t : Table) (i : Int) (p : ColumnProfile)
    (h : profile_column t i = .ok p) :
    get_col_set t i = .ok p.distinct_values ∧
      p.name = t.header.getD i.toNat "" ∧
      p.distinct_count = p.distinct_values.card ∧
      p.max_length = max_value_length p.distinct_values := by
  rw [profile_column_eq] at h
  cases hg : get_col_set t i with
  | error e =>
      rw [hg] at h
      exact absurd h (by simp [Except.map])
  | ok s =>
      rw [hg] at h
      simp only [Except.map, Except.ok.injEq] at h
      rw [← h]
      exact ⟨rfl, rfl, rfl, rfl⟩

/-- Per-index characterisation of a successful run of the per-column
profiling loop. -/
theorem profile_columns_ok (t : Table) (l : List Nat) (ps : List ColumnProfile)
    (h : profile_columns t l = .ok ps) :
    ps.length = l.length ∧
      ∀ j, (hj : j < l.length) → ∃ hj2 : j < ps.length,
        profile_column t ((l.get ⟨j, hj⟩ : Nat) : Int) = .ok (ps.get ⟨j, hj2⟩) := by
  induction l generalizing ps with
  | nil =>
      simp only [profile_columns, except_pure, Except.ok.injEq] at h
      subst h
      exact ⟨rfl, fun j hj => absurd hj (by simp)⟩
  | cons a as ih =>
      cases hp : profile_column t (a : Int) with
      | error e =>
          rw [profile_columns, hp, except_bind_err] at h
          exact absurd h (by simp)
      | ok p =>
          cases hrest : profile_columns t as with
          | error e =>
              rw [profile_columns, hp, except_bind_ok, hrest, except_bind_err] at h
              exact absurd h (by simp)
          | ok qs =>
              rw [profile_columns, hp, except_bind_ok, hrest, except_bind_ok,
                except_pure] at h
              cases h
              obtain ⟨hlen, hget⟩ := ih qs hrest
              refine ⟨by simp [hlen], ?_⟩
              intro j hj
              cases j with
              | zero => exact ⟨by simp, by simpa using hp⟩
              | succ k =>
                  have hk : k < as.length := Nat.lt_of_succ_lt_succ hj
                  obtain ⟨hk2, hgk⟩ := hget k hk
                  exact ⟨Nat.succ_lt_succ hk2, by simpa using hgk⟩

/-! ## Claims -/

/-- Claim C1: for every table and every column index valid for all data
rows, `get_col_set` returns exactly the set of distinct raw text values at
that index across all data rows, the header row being skipped and not
included. -/
theorem get_col_set_distinct_values (t : Table) (i : Nat)
    (h : ∀ r ∈ t.rows, i < r.length) :
    get_col_set t (i : Int) =
      .ok ((t.rows.map (fun r => r.getD i "")).toFinset) :=
  get_col_set_rows_valid i t.rows h

/-- Claim C1 witness: header `["day"]`, rows `["Mon"],["Tue"],["Mon"]`
profile column 0 to the set with the two members `Mon` and `Tue`. -/
theorem get_col_set_distinct_values_witness :
    get_col_set ⟨["day"], [["Mon"], ["Tue"], ["Mon"]]⟩ 0 =
      .ok ({"Tue", "Mon"} : Finset String) ∧
    ({"Tue", "Mon"} : Finset String).card = 2 :=
  ⟨(get_col_set_distinct_values ⟨["day"], [["Mon"], ["Tue"], ["Mon"]]⟩ 0
      (by decide)).trans rfl, rfl⟩

/-- Claim C2: for every column with at least one data row and an index
valid for all rows, the profiled `max_length` is the length of a longest
member of the distinct-value set: it is attained by some member and bounds
the length of every member. -/
theorem max_length_is_longest (t : Table) (i : Nat)
    (h : ∀ r ∈ t.rows, i < r.length) (hne : t.rows ≠ []) :
    ∃ p, profile_column t (i : Int) = .ok p ∧
      ∃ v ∈ p.distinct_values, p.max_length = v.length ∧
        ∀ w ∈ p.distinct_values, w.length ≤ v.length := by
  have hs := get_col_set_rows_valid i t.rows h
  set S := (t.rows.map (fun r => r.getD i "")).toFinset with hS
  have hprof : profile_column t (i : Int) =
      .ok ⟨t.header.getD ((i : Int)).toNat "", S, S.card, max_value_length S⟩ := by
    rw [profile_column_eq, show get_col_set t (i : Int) = .ok S from hs]
    rfl
  refine ⟨_, hprof, ?_⟩
  have hSne : S.Nonempty := by
    cases ht : t.rows with
    | nil => exact absurd ht hne
    | cons r rest =>
        refine ⟨r.getD i "", ?_⟩
        rw [hS, ht]
        simp
  obtain ⟨v, hv, hveq⟩ := Finset.exists_mem_eq_sup S hSne String.length
  refine ⟨v, hv, hveq, ?_⟩
  intro w hw
  calc w.length ≤ S.sup String.length := Finset.le_sup hw
  _ = v.length := hveq

/-- Claim C2 witness: header `["id","desc"]` with the three example rows
profiles column 1 to distinct count 2 and maximum length 9, attained by
`VANDALISM`. -/
theorem max_length_is_longest_witness :
    (∃ p, profile_column ⟨["id", "desc"],
        [["1", "LARCENY"], ["2", "VANDALISM"], ["3", "LARCENY"]]⟩ ((1 : Nat) : Int) =
          .ok p ∧
      ∃ v ∈ p.distinct_values, p.max_length = v.length ∧
        ∀ w ∈ p.distinct_values, w.length ≤ v.length) ∧
    profile_column ⟨["id", "desc"],
        [["1", "LARCENY"], ["2", "VANDALISM"], ["3", "LARCENY"]]⟩ 1 =
      .ok ⟨"desc", {"VANDALISM", "LARCENY"}, 2, 9⟩ :=
  ⟨max_length_is_longest _ 1 (by decide) (by decide), rfl⟩

/-- Claim C3: a successful `profile_table` run returns one profile per
header column, in header order: the result length is the header length and
the profile at position `j` is the profile of column `j`, named after
header entry `j`. -/
theorem profile_table_header_aligned (t : Table) (ps : List ColumnProfile)
    (h : profile_table t = .ok ps) :
    ps.length = t.header.length ∧
      ∀ j, (hj : j < t.header.length) → ∃ hj2 : j < ps.length,
        profile_column t (j : Int) = .ok (ps.get ⟨j, hj2⟩) ∧
        (ps.get ⟨j, hj2⟩).name = t.header.getD j "" := by
  obtain ⟨hlen, hget⟩ := profile_columns_ok t (List.range t.header.length) ps
    (by simpa [profile_table] using h)
  rw [List.length_range] at hlen
  refine ⟨hlen, ?_⟩
  intro j hj
  have hj' : j < (List.range t.header.length).length := by simpa using hj
  obtain ⟨hj2, hgj⟩ := hget j hj'
  rw [show (List.range t.header.length).get ⟨j, hj'⟩ = j from List.get_range j hj']
    at hgj
  refine ⟨hj2, hgj, ?_⟩
  have hname := (profile_column_ok_inv t (j : Int) _ hgj).2.1
  simpa using hname

/-- Claim C3 witness: a two-column table profiles to a two-profile list
aligned with the header. -/
theorem profile_table_header_aligned_witness :
    profile_table ⟨["a", "b"], [["x", "y"]]⟩ =
      .ok [⟨"a", {"x"}, 1, 1⟩, ⟨"b", {"y"}, 1, 1⟩] ∧
    ([⟨"a", {"x"}, 1, 1⟩, ⟨"b", {"y"}, 1, 1⟩] : List ColumnProfile).length =
      (["a", "b"] : List String).length := by
  have h0 : profile_table ⟨["a", "b"], [["x", "y"]]⟩ =
      .ok [⟨"a", {"x"}, 1, 1⟩, ⟨"b", {"y"}, 1, 1⟩] := rfl
  exact ⟨h0, (profile_table_header_aligned _ _ h0).1⟩

/-- Claim C4: a table with only a header (zero data rows) profiles every
in-bounds column to an empty distinct-value set, distinct count 0 and
maximum length 0, successfully. -/
theorem profile_header_only (t : Table) (i : Nat) (hr : t.rows = [])
    (hi : i < t.header.length) :
    profile_column t (i : Int) = .ok ⟨t.header.getD i "", ∅, 0, 0⟩ := by
  rw [profile_column_eq,
    show get_col_set t (i : Int) = .ok (∅ : Finset String) by
      show get_col_set_rows t.rows (i : Int) = _
      rw [hr]
      rfl]
  rfl

/-- Claim C4 witness: a header-only two-column table profiles column 0 to
the empty profile. -/
theorem profile_header_only_witness :
    profile_column ⟨["a", "b"], []⟩ ((0 : Nat) : Int) = .ok ⟨"a", ∅, 0, 0⟩ :=
  profile_header_only ⟨["a", "b"], []⟩ 0 rfl (by decide)

/-- Claim C5 counterexample: the scan performs no header-bounds check, so a
column index far beyond a two-column header succeeds on a table with no
data rows, returning an empty profile instead of failing. -/
theorem invalid_index_unchecked_counterexample :
    profile_column ⟨["a", "b"], []⟩ 5 = .ok ⟨"", ∅, 0, 0⟩ := rfl

/-- Claim C5 amended: `get_col_set` checks nothing against the header; for
a non-negative column index it fails with the index error exactly when some
data row has at most `column_index` fields, and in particular succeeds with
an empty set on a table with no data rows, whatever the index. -/
theorem get_col_set_error_iff_short_row (t : Table) (i : Nat) :
    get_col_set t (i : Int) = .error .indexError ↔
      ∃ r ∈ t.rows, r.length ≤ i := by
  rw [show get_col_set t (i : Int) = get_col_set_rows t.rows (i : Int) from rfl,
    get_col_set_rows_error_iff]
  constructor
  · rintro ⟨r, hr, hn⟩
    rw [pyIndex_nat] at hn
    refine ⟨r, hr, ?_⟩
    by_contra hlt
    rw [if_pos (by omega)] at hn
    exact absurd hn (by simp)
  · rintro ⟨r, hr, hle⟩
    refine ⟨r, hr, ?_⟩
    rw [pyIndex_nat, if_neg (by omega)]

/-- Claim C6: when some data row has fewer than `column_index + 1` fields,
with `column_index` within header bounds, profiling the column fails with
the index error raised at the short row: the call returns an error and no
`ColumnProfile` at all. -/
theorem short_row_error (t : Table) (i : Nat) (hi : i < t.header.length)
    (hr : ∃ r ∈ t.rows, r.length < i + 1) :
    profile_column t (i : Int) = .error .indexError := by
  have hg : get_col_set t (i : Int) = .error .indexError := by
    apply (get_col_set_rows_error_iff _ _).mpr
    obtain ⟨r, hrm, hlen⟩ := hr
    refine ⟨r, hrm, ?_⟩
    rw [pyIndex_nat, if_neg (by omega)]
  rw [profile_column_eq, hg]
  rfl

/-- Claim C6 witness: a two-column header with a one-field data row fails
on column 1 with the index error. -/
theorem short_row_error_witness :
    profile_column ⟨["a", "b"], [["x"]]⟩ ((1 : Nat) : Int) = .error .indexError :=
  short_row_error ⟨["a", "b"], [["x"]]⟩ 1 (by decide) (by decide)

/-- Claim C7: profiling is invariant under any permutation of the data
rows, the header kept fixed: the permuted table yields the very same
`ColumnProfile` outcome for every column index. -/
theorem profile_column_perm_invariant (t t' : Table) (i : Int)
    (hh : t.header = t'.header) (hp : t.rows.Perm t'.rows) :
    profile_column t i = profile_column t' i := by
  rw [profile_column_eq, profile_column_eq, hh,
    show get_col_set t i = get_col_set_rows t.rows i from rfl,
    show get_col_set t' i = get_col_set_rows t'.rows i from rfl,
    get_col_set_rows_perm i t.rows t'.rows hp]

/-- Claim C7 witness: reordering the three example rows leaves the profile
of column 0 unchanged. -/
theorem profile_column_perm_invariant_witness :
    profile_column ⟨["day"], [["Mon"], ["Tue"], ["Mon"]]⟩ 0 =
      profile_column ⟨["day"], [["Tue"], ["Mon"], ["Mon"]]⟩ 0 :=
  profile_column_perm_invariant ⟨["day"], [["Mon"], ["Tue"], ["Mon"]]⟩
    ⟨["day"], [["Tue"], ["Mon"], ["Mon"]]⟩ 0 rfl (by decide)

/-- Claim C8: profiling is a pure function of the input table: two runs of
`profile_table` over the same immutable table return equal profile lists,
and in particular equal distinct-value sets; no state is carried across
calls. -/
theorem profiling_deterministic (t : Table) (ps₁ ps₂ : List ColumnProfile)
    (h₁ : profile_table t = .ok ps₁) (h₂ : profile_table t = .ok ps₂) :
    ps₁ = ps₂ ∧
      ps₁.map ColumnProfile.distinct_values =
        ps₂.map ColumnProfile.distinct_values := by
  have h3 : (Except.ok ps₁ : Except ProfileError (List ColumnProfile)) = .ok ps₂ :=
    h₁.symm.trans h₂
  have h4 : ps₁ = ps₂ := by injection h3
  exact ⟨h4, by rw [h4]⟩

/-- Claim C8 witness: two runs over a one-column table give the same
profile list. -/
theorem profiling_deterministic_witness :
    ([⟨"a", {"x"}, 1, 1⟩] : List ColumnProfile) = [⟨"a", {"x"}, 1, 1⟩] ∧
    ([⟨"a", {"x"}, 1, 1⟩] : List ColumnProfile).map ColumnProfile.distinct_values =
      ([⟨"a", {"x"}, 1, 1⟩] : List ColumnProfile).map ColumnProfile.distinct_values :=
  profiling_deterministic ⟨["a"], [["x"]]⟩ _ _ rfl rfl

/-- Claim C9: for an in-bounds column index, the single-pass scan tracking
a running maximum while inserting each field returns exactly the final
distinct-value set paired with the second-pass maximum length over that
set; the two ways of computing `max_length` agree. -/
theorem running_max_eq_second_pass (t : Table) (i : Nat)
    (hi : i < t.header.length) :
    runningMaxScan t.rows (i : Int) ∅ 0 =
      (get_col_set t (i : Int)).map (fun s => (s, max_value_length s)) := by
  rw [runningMaxScan_eq,
    show get_col_set t (i : Int) = get_col_set_rows t.rows (i : Int) from rfl]
  cases h : get_col_set_rows t.rows (i : Int) with
  | error e => rfl
  | ok s =>
      simp only [Except.map, Except.ok.injEq]
      refine Prod.ext ?_ ?_
      · show ∅ ∪ s = s
        exact Finset.empty_union s
      · show Nat.max 0 (max_value_length s) = max_value_length s
        exact Nat.zero_max (max_value_length s)

/-- Claim C9 witness: on the two-column example the scan with running
maximum and the second-pass computation agree, both giving the set of the
two descriptions with maximum length 9. -/
theorem running_max_eq_second_pass_witness :
    runningMaxScan [["1", "LARCENY"], ["2", "VANDALISM"], ["3", "LARCENY"]]
        ((1 : Nat) : Int) ∅ 0 =
      (get_col_set ⟨["id", "desc"],
          [["1", "LARCENY"], ["2", "VANDALISM"], ["3", "LARCENY"]]⟩
          ((1 : Nat) : Int)).map (fun s => (s, max_value_length s)) ∧
    runningMaxScan [["1", "LARCENY"], ["2", "VANDALISM"], ["3", "LARCENY"]]
        ((1 : Nat) : Int) ∅ 0 = .ok ({"VANDALISM", "LARCENY"}, 9) :=
  ⟨running_max_eq_second_pass ⟨["id", "desc"],
      [["1", "LARCENY"], ["2", "VANDALISM"], ["3", "LARCENY"]]⟩ 1 (by decide), rfl⟩

/-- Claim C10: negative column indices are accepted, not rejected: when
every data row has at least `k` fields, `get_col_set` at index `-k` raises
no error and returns the distinct values of the field at position
`row length - k` of each data row. -/
theorem get_col_set_negative_index (t : Table) (k : Nat) (hk : 1 ≤ k)
    (h : ∀ r ∈ t.rows, k ≤ r.length) :
    get_col_set t (-(k : Int)) =
      .ok ((t.rows.map (fun r => r.getD (r.length - k) "")).toFinset) := by
  have hall : ∀ r ∈ t.rows, (pyIndex r.length (-(k : Int))).isSome := by
    intro r hr
    rw [pyIndex_neg r.length k hk, if_pos (h r hr)]
    rfl
  rw [show get_col_set t (-(k : Int)) = get_col_set_rows t.rows (-(k : Int)) from rfl,
    get_col_set_rows_ok _ _ hall]
  congr 2
  apply List.map_congr_left
  intro r hr
  rw [pyGetD_eq r _ (r.length - k)
    (by rw [pyIndex_neg r.length k hk, if_pos (h r hr)])]

/-- Claim C10 witness: index `-1` on two-field rows selects the last field
of each row. -/
theorem get_col_set_negative_index_witness :
    get_col_set ⟨["a", "b"], [["1", "x"], ["2", "y"]]⟩ (-1) =
      .ok ({"x", "y"} : Finset String) :=
  (get_col_set_negative_index ⟨["a", "b"], [["1", "x"], ["2", "y"]]⟩ 1
    (by decide) (by decide)).trans rfl
